import Mathlib

/-!
# Verification of the cocaine-core wire-level fragments

Shallow embedding of the repository's core headers:

* `include/cocaine/rpc/slots/deferred.hpp` — the single-assignment deferred
  future (`future_state`, `result_visitor_t`) and the `deferred_slot`;
* `include/cocaine/lines.hpp` — the framed transport (`socket_t`), the typed
  channel (`channel_t::send_multi`, typed `send`/`recv`);
* `include/cocaine/drivers/abstract.hpp` — the driver `publish` guard.

C++ state (mutex-guarded members, sockets) is modelled by explicit state
passing; every operation returns the successor state together with the list
of messages it emitted.  Exceptions are modelled by `Except`/sum types.
-/

set_option autoImplicit false

namespace Cocaine

/-! ## Deferred future state (deferred.hpp, namespace io::aux)

`boost::variant<unassigned, value_type<T>, error_type, empty_type>` becomes
the four-armed inductive `result_t`; `future_state<T>` holds the variant and
the optional attached upstream.  Upstreams are identified abstractly by a
type `U`; a delivery is a pair `(upstream, message)`. -/

inductive result_t (T : Type) where
  | unassigned : result_t T
  | value_type (value : T) : result_t T
  | error_type (code : Int) (reason : String) : result_t T
  | empty_type : result_t T
deriving DecidableEq

/-- The `streaming<T>` message kinds an upstream can receive: `chunk`,
`error`, `choke` (`io::streaming<T>` in the source). -/
inductive Msg (T : Type) where
  | chunk (value : T) : Msg T
  | error (code : Int) (reason : String) : Msg T
  | choke : Msg T
deriving DecidableEq

/-- `io::aux::future_state<T>`: the stored variant plus the optional
attached upstream (`std::shared_ptr<upstream_t>` modelled as `Option U`). -/
structure future_state (T U : Type) where
  result : result_t T
  upstream : Option U
deriving DecidableEq

/-- `future_state::result_visitor_t`: the message sequence delivered for a
given variant arm. -/
def result_visitor {T : Type} : result_t T → List (Msg T)
  | result_t.unassigned => []
  | result_t.value_type v => [Msg.chunk v, Msg.choke]
  | result_t.error_type c r => [Msg.error c r, Msg.choke]
  | result_t.empty_type => [Msg.choke]

/-- `future_state::flush`: if an upstream is attached, apply the visitor to
the current result; otherwise nothing is delivered. -/
def flush {T U : Type} (s : future_state T U) : List (U × Msg T) :=
  match s.upstream with
  | none => []
  | some u => (result_visitor s.result).map (fun m => (u, m))

/-- `future_state_base::write`: assign `value_type` and flush only when the
variant is still `unassigned`. -/
def write {T U : Type} (s : future_state T U) (value : T) :
    future_state T U × List (U × Msg T) :=
  match s.result with
  | result_t.unassigned =>
      let s2 : future_state T U := ⟨result_t.value_type value, s.upstream⟩
      (s2, flush s2)
  | _ => (s, [])

/-- `future_state::abort`: assign `error_type` and flush only when the
variant is still `unassigned`. -/
def abort {T U : Type} (s : future_state T U) (code : Int) (reason : String) :
    future_state T U × List (U × Msg T) :=
  match s.result with
  | result_t.unassigned =>
      let s2 : future_state T U := ⟨result_t.error_type code reason, s.upstream⟩
      (s2, flush s2)
  | _ => (s, [])

/-- `future_state::close`: assign `empty_type` and flush only when the
variant is still `unassigned`. -/
def close {T U : Type} (s : future_state T U) :
    future_state T U × List (U × Msg T) :=
  match s.result with
  | result_t.unassigned =>
      let s2 : future_state T U := ⟨result_t.empty_type, s.upstream⟩
      (s2, flush s2)
  | _ => (s, [])

/-- `future_state::attach`: unconditionally replace the upstream, then flush
when the variant is no longer `unassigned`. -/
def attach {T U : Type} (s : future_state T U) (u : U) :
    future_state T U × List (U × Msg T) :=
  let s2 : future_state T U := ⟨s.result, some u⟩
  match s.result with
  | result_t.unassigned => (s2, [])
  | _ => (s2, flush s2)

/-- The externally callable operations on one `future_state`. -/
inductive Op (T U : Type) where
  | write (value : T) : Op T U
  | abort (code : Int) (reason : String) : Op T U
  | close : Op T U
  | attach (u : U) : Op T U

/-- Terminal operations are those that can assign the variant:
`write`, `abort`, `close` — everything except `attach`. -/
def Op.isTerminal {T U : Type} : Op T U → Bool
  | Op.write _ => true
  | Op.abort _ _ => true
  | Op.close => true
  | Op.attach _ => false

/-- One operation applied to a state. -/
def step {T U : Type} (s : future_state T U) : Op T U → future_state T U × List (U × Msg T)
  | Op.write v => write s v
  | Op.abort c r => abort s c r
  | Op.close => close s
  | Op.attach u => attach s u

/-- A sequence of operations, accumulating all deliveries.  The mutex in the
source serializes the operations, so a run is a list of steps. -/
def run {T U : Type} (s : future_state T U) : List (Op T U) → future_state T U × List (U × Msg T)
  | [] => (s, [])
  | op :: rest =>
      let p := step s op
      let q := run p.1 rest
      (q.1, p.2 ++ q.2)

/-- A freshly constructed deferred: `unassigned`, no upstream. -/
def init (T U : Type) : future_state T U := ⟨result_t.unassigned, none⟩

/-- Number of `attach` operations in a run. -/
def countAttach {T U : Type} : List (Op T U) → Nat
  | [] => 0
  | op :: rest => (if op.isTerminal then 0 else 1) + countAttach rest

/-- Number of terminal (`write`/`abort`/`close`) operations in a run. -/
def countTerminal {T U : Type} : List (Op T U) → Nat
  | [] => 0
  | op :: rest => (if op.isTerminal then 1 else 0) + countTerminal rest

/-! ### Helper lemmas about the state machine -/

/-- A terminal op on an already-assigned state changes nothing and emits
nothing. -/
theorem step_terminal_noop {T U : Type} (s : future_state T U) (op : Op T U)
    (hterm : op.isTerminal = true) (h : s.result ≠ result_t.unassigned) :
    step s op = (s, []) := by
  cases op with
  | write v =>
      cases hr : s.result with
      | unassigned => exact absurd hr h
      | value_type v0 => simp [step, write, hr]
      | error_type c r => simp [step, write, hr]
      | empty_type => simp [step, write, hr]
  | abort c r =>
      cases hr : s.result with
      | unassigned => exact absurd hr h
      | value_type v0 => simp [step, abort, hr]
      | error_type c0 r0 => simp [step, abort, hr]
      | empty_type => simp [step, abort, hr]
  | close =>
      cases hr : s.result with
      | unassigned => exact absurd hr h
      | value_type v0 => simp [step, close, hr]
      | error_type c0 r0 => simp [step, close, hr]
      | empty_type => simp [step, close, hr]
  | attach u => simp [Op.isTerminal] at hterm

/-- Every step preserves an already-assigned variant. -/
theorem step_preserves_assigned {T U : Type} (s : future_state T U) (op : Op T U)
    (h : s.result ≠ result_t.unassigned) :
    (step s op).1.result = s.result := by
  cases op with
  | write v =>
      cases hr : s.result with
      | unassigned => exact absurd hr h
      | value_type v0 => simp [step, write, hr]
      | error_type c r => simp [step, write, hr]
      | empty_type => simp [step, write, hr]
  | abort c r =>
      cases hr : s.result with
      | unassigned => exact absurd hr h
      | value_type v0 => simp [step, abort, hr]
      | error_type c0 r0 => simp [step, abort, hr]
      | empty_type => simp [step, abort, hr]
  | close =>
      cases hr : s.result with
      | unassigned => exact absurd hr h
      | value_type v0 => simp [step, close, hr]
      | error_type c0 r0 => simp [step, close, hr]
      | empty_type => simp [step, close, hr]
  | attach u =>
      cases hr : s.result with
      | unassigned => exact absurd hr h
      | value_type v0 => simp [step, attach, hr]
      | error_type c0 r0 => simp [step, attach, hr]
      | empty_type => simp [step, attach, hr]

/-- An assigned variant is permanent across any run. -/
theorem run_preserves_assigned {T U : Type} (ops : List (Op T U)) :
    ∀ (s : future_state T U), s.result ≠ result_t.unassigned →
      (run s ops).1.result = s.result := by
  induction ops with
  | nil => intro s _; simp [run]
  | cons op rest ih =>
      intro s h
      have h1 := step_preserves_assigned s op h
      have h2 : (step s op).1.result ≠ result_t.unassigned := by
        rw [h1]; exact h
      simp only [run]
      rw [ih (step s op).1 h2, h1]

/-! ### C1 — single assignment -/

/-- **C1.** Single assignment: the first `write`/`abort`/`close` that finds
the variant `unassigned` assigns the corresponding terminal arm; once
assigned, every later `write`/`abort`/`close` is a silent no-op (state and
emissions unchanged), and the assigned arm never changes across any run —
so at most one of `value_type`/`error_type`/`empty_type` is ever observed. -/
theorem deferred_single_assignment {T U : Type} :
    (∀ (s : future_state T U) (v : T), s.result = result_t.unassigned →
        (write s v).1.result = result_t.value_type v) ∧
    (∀ (s : future_state T U) (c : Int) (r : String), s.result = result_t.unassigned →
        (abort s c r).1.result = result_t.error_type c r) ∧
    (∀ s : future_state T U, s.result = result_t.unassigned →
        (close s).1.result = result_t.empty_type) ∧
    (∀ (s : future_state T U) (op : Op T U), op.isTerminal = true →
        s.result ≠ result_t.unassigned → step s op = (s, [])) ∧
    (∀ (s : future_state T U) (ops : List (Op T U)), s.result ≠ result_t.unassigned →
        (run s ops).1.result = s.result) := by
  refine ⟨?_, ?_, ?_, ?_, ?_⟩
  · intro s v h; simp [write, h]
  · intro s c r h; simp [abort, h]
  · intro s h; simp [close, h]
  · intro s op hterm h; exact step_terminal_noop s op hterm h
  · intro s ops h; exact run_preserves_assigned ops s h

/-- Witness for C1 at concrete inputs. -/
theorem deferred_single_assignment_witness :
    (write (init Nat Nat) 7).1.result = result_t.value_type 7 ∧
    step (⟨result_t.value_type 7, none⟩ : future_state Nat Nat) Op.close
      = (⟨result_t.value_type 7, none⟩, []) := by
  constructor
  · exact (deferred_single_assignment (T := Nat) (U := Nat)).1 (init Nat Nat) 7 rfl
  · exact (deferred_single_assignment (T := Nat) (U := Nat)).2.2.2.1
      ⟨result_t.value_type 7, none⟩ Op.close rfl (by simp)

/-! ### C2 — flush exactly once -/

/-- Every operation is either an `attach` or a terminal op, so the two
counters sum to the run's length. -/
theorem count_sum {T U : Type} (ops : List (Op T U)) :
    countAttach ops + countTerminal ops = ops.length := by
  induction ops with
  | nil => simp [countAttach, countTerminal]
  | cons op rest ih =>
      cases op <;> simp [countAttach, countTerminal, Op.isTerminal] <;> omega

/-- **C2.** Flush exactly once: in any run from a fresh deferred containing
exactly one `attach u` and at most one terminal transition, the trace
delivered to `u` is the terminal sequence exactly once when a terminal
transition occurs (in either attach/transition order), and empty when the
state is still `unassigned` — in particular an `attach` that finds the
state `unassigned` delivers nothing. -/
theorem deferred_flush_exactly_once {T U : Type} (ops : List (Op T U)) (u : U)
    (h1 : countAttach ops = 1) (h2 : countTerminal ops ≤ 1)
    (hmem : Op.attach u ∈ ops) :
    ((run (init T U) ops).1.result = result_t.unassigned → (run (init T U) ops).2 = []) ∧
    ((run (init T U) ops).1.result ≠ result_t.unassigned →
      (run (init T U) ops).2
        = (result_visitor (run (init T U) ops).1.result).map (fun m => (u, m))) ∧
    (countTerminal ops = 1 → (run (init T U) ops).1.result ≠ result_t.unassigned) := by
  cases ops with
  | nil => simp at hmem
  | cons x rest =>
      cases rest with
      | nil =>
          cases x with
          | write v => simp [countAttach, Op.isTerminal] at h1
          | abort c r => simp [countAttach, Op.isTerminal] at h1
          | close => simp [countAttach, Op.isTerminal] at h1
          | attach u0 =>
              simp only [List.mem_singleton] at hmem
              cases hmem
              simp [run, step, attach, init, countTerminal, Op.isTerminal]
      | cons y rest2 =>
          cases rest2 with
          | nil =>
              cases x with
              | write v =>
                  cases y with
                  | write w => simp [countAttach, Op.isTerminal] at h1
                  | abort c r => simp [countAttach, Op.isTerminal] at h1
                  | close => simp [countAttach, Op.isTerminal] at h1
                  | attach u0 =>
                      simp only [List.mem_cons, List.mem_singleton, reduceCtorEq,
                        false_or, Op.attach.injEq, List.not_mem_nil, or_false] at hmem
                      cases hmem
                      simp [run, step, write, attach, flush, init, result_visitor,
                        countTerminal, Op.isTerminal]
              | abort c r =>
                  cases y with
                  | write w => simp [countAttach, Op.isTerminal] at h1
                  | abort c2 r2 => simp [countAttach, Op.isTerminal] at h1
                  | close => simp [countAttach, Op.isTerminal] at h1
                  | attach u0 =>
                      simp only [List.mem_cons, List.mem_singleton, reduceCtorEq,
                        false_or, Op.attach.injEq, List.not_mem_nil, or_false] at hmem
                      cases hmem
                      simp [run, step, abort, attach, flush, init, result_visitor,
                        countTerminal, Op.isTerminal]
              | close =>
                  cases y with
                  | write w => simp [countAttach, Op.isTerminal] at h1
                  | abort c2 r2 => simp [countAttach, Op.isTerminal] at h1
                  | close => simp [countAttach, Op.isTerminal] at h1
                  | attach u0 =>
                      simp only [List.mem_cons, List.mem_singleton, reduceCtorEq,
                        false_or, Op.attach.injEq, List.not_mem_nil, or_false] at hmem
                      cases hmem
                      simp [run, step, close, attach, flush, init, result_visitor,
                        countTerminal, Op.isTerminal]
              | attach u0 =>
                  cases y with
                  | write w =>
                      simp only [List.mem_cons, List.mem_singleton, reduceCtorEq,
                        or_false, Op.attach.injEq, List.not_mem_nil] at hmem
                      cases hmem
                      simp [run, step, write, attach, flush, init, result_visitor,
                        countTerminal, Op.isTerminal]
                  | abort c r =>
                      simp only [List.mem_cons, List.mem_singleton, reduceCtorEq,
                        or_false, Op.attach.injEq, List.not_mem_nil] at hmem
                      cases hmem
                      simp [run, step, abort, attach, flush, init, result_visitor,
                        countTerminal, Op.isTerminal]
                  | close =>
                      simp only [List.mem_cons, List.mem_singleton, reduceCtorEq,
                        or_false, Op.attach.injEq, List.not_mem_nil] at hmem
                      cases hmem
                      simp [run, step, close, attach, flush, init, result_visitor,
                        countTerminal, Op.isTerminal]
                  | attach u1 => simp [countAttach, Op.isTerminal] at h1
          | cons z rest3 =>
              exfalso
              have hs := count_sum (x :: y :: z :: rest3)
              simp only [List.length_cons] at hs
              omega

/-- Witness for C2: attach then write on a fresh deferred delivers
`chunk`+`choke` exactly once. -/
theorem deferred_flush_exactly_once_witness :
    ((run (init Nat Nat) [Op.attach 1, Op.write 7]).1.result ≠ result_t.unassigned →
      (run (init Nat Nat) [Op.attach 1, Op.write 7]).2
        = (result_visitor (run (init Nat Nat) [Op.attach 1, Op.write 7]).1.result).map
            (fun m => (1, m))) ∧
    (run (init Nat Nat) [Op.attach 1, Op.write 7]).2
      = [(1, Msg.chunk 7), (1, Msg.choke)] := by
  constructor
  · exact (deferred_flush_exactly_once [Op.attach 1, Op.write 7] 1
      (by simp [countAttach, Op.isTerminal])
      (by simp [countTerminal, Op.isTerminal])
      (by simp)).2.1
  · simp [run, step, write, attach, flush, init, result_visitor]

/-! ### C4 — terminal delivery mapping -/

/-- **C4.** When `flush` fires with an upstream attached, the delivered
sequence is determined by the variant: `value_type v ↦ chunk v; choke`,
`error_type c r ↦ error c r; choke`, `empty_type ↦ choke`,
`unassigned ↦` nothing. -/
theorem flush_delivery_mapping {T U : Type} (v : T) (c : Int) (r : String) (u : U) :
    flush (⟨result_t.value_type v, some u⟩ : future_state T U)
      = [(u, Msg.chunk v), (u, Msg.choke)] ∧
    flush (⟨result_t.error_type c r, some u⟩ : future_state T U)
      = [(u, Msg.error c r), (u, Msg.choke)] ∧
    flush (⟨result_t.empty_type, some u⟩ : future_state T U) = [(u, Msg.choke)] ∧
    flush (⟨result_t.unassigned, some u⟩ : future_state T U) = [] := by
  refine ⟨rfl, rfl, rfl, rfl⟩

/-! ### C10 — re-attach always replaces and redelivers -/

/-- **C10.** `attach` unconditionally replaces the stored upstream, never
changes the variant, and, exactly when the variant is already terminal,
delivers the full terminal sequence to the newly attached upstream. -/
theorem attach_replaces_and_redelivers {T U : Type} (s : future_state T U) (u : U) :
    (attach s u).1.upstream = some u ∧
    (attach s u).1.result = s.result ∧
    (s.result = result_t.unassigned → (attach s u).2 = []) ∧
    (s.result ≠ result_t.unassigned →
      (attach s u).2 = (result_visitor s.result).map (fun m => (u, m))) := by
  obtain ⟨r, up⟩ := s
  cases r with
  | unassigned =>
      refine ⟨by simp [attach], by simp [attach], fun _ => by simp [attach], ?_⟩
      intro h; exact absurd rfl h
  | value_type v =>
      refine ⟨by simp [attach], by simp [attach], ?_, ?_⟩
      · intro h; cases h
      · intro _; simp [attach, flush]
  | error_type c r =>
      refine ⟨by simp [attach], by simp [attach], ?_, ?_⟩
      · intro h; cases h
      · intro _; simp [attach, flush]
  | empty_type =>
      refine ⟨by simp [attach], by simp [attach], ?_, ?_⟩
      · intro h; cases h
      · intro _; simp [attach, flush]

/-- Witness for C10 at a concrete terminal state. -/
theorem attach_replaces_and_redelivers_witness :
    (attach (⟨result_t.value_type 5, none⟩ : future_state Nat Nat) 2).1.upstream = some 2 ∧
    (attach (⟨result_t.value_type 5, none⟩ : future_state Nat Nat) 2).2
      = [(2, Msg.chunk 5), (2, Msg.choke)] := by
  constructor
  · exact (attach_replaces_and_redelivers (⟨result_t.value_type 5, none⟩ : future_state Nat Nat) 2).1
  · exact (attach_replaces_and_redelivers
      (⟨result_t.value_type 5, none⟩ : future_state Nat Nat) 2).2.2.2 (by simp)

/-! ## Deferred slot (deferred.hpp, `deferred_slot::operator()`)

The handler call `this->call(unpacked)` either returns a deferred (whose
state the slot attaches the upstream to), throws a `std::system_error`
(carrying its own `(code, message)`), or throws some other
`std::exception` (carrying `what`).  The three-way `try/catch` becomes a
sum type of handler outcomes; the actions the slot performs directly on
the upstream (`send<error>`, `seal<choke>`) are recorded as a list. -/

inductive UpAction (T : Type) where
  | send (m : Msg T) : UpAction T
  | seal : UpAction T
deriving DecidableEq

inductive Outcome (T U : Type) where
  | ok (state : future_state T U) : Outcome T U
  | system_error (code : Int) (message : String) : Outcome T U
  | other_error (what : String) : Outcome T U

/-- What `deferred_slot::operator()` produces: the returned continuation
dispatch (always the empty one), the attach performed on the returned
deferred's state (with its flush deliveries) when the handler returned
normally, and the actions sent directly on the upstream otherwise. -/
structure SlotOutput (T U : Type) where
  dispatch : Option Unit
  attached : Option (future_state T U × List (U × Msg T))
  direct : List (UpAction T)

/-- `deferred_slot::operator()`.  `invocationError` is the numeric
`invocation_error` code (defined outside the provided fragment), passed in
as a parameter. -/
def deferred_slot {T U : Type} (invocationError : Int)
    (outcome : Outcome T U) (u : U) : SlotOutput T U :=
  match outcome with
  | Outcome.ok s => ⟨none, some (attach s u), []⟩
  | Outcome.system_error c m =>
      ⟨none, none, [UpAction.send (Msg.error c m), UpAction.seal]⟩
  | Outcome.other_error w =>
      ⟨none, none, [UpAction.send (Msg.error invocationError w), UpAction.seal]⟩

/-! ### C3 — the slot never raises -/

/-- **C3.** For every handler outcome the slot returns normally with the
empty continuation dispatch; a typed system error is forwarded as
`error(code, message)` then `seal(choke)` directly on the upstream; any
other error as `error(invocation_error, what)` then `seal(choke)`; and on
exit the upstream is either attached to a deferred or the last direct
action sealed it. -/
theorem slot_never_raises {T U : Type} (invocationError : Int)
    (outcome : Outcome T U) (u : U) :
    (deferred_slot invocationError outcome u).dispatch = none ∧
    (∀ s : future_state T U, outcome = Outcome.ok s →
      (deferred_slot invocationError outcome u).attached = some (attach s u) ∧
      (deferred_slot invocationError outcome u).direct = []) ∧
    (∀ (c : Int) (m : String), outcome = Outcome.system_error c m →
      (deferred_slot invocationError outcome u).direct
        = [UpAction.send (Msg.error c m), UpAction.seal]) ∧
    (∀ w : String, outcome = Outcome.other_error w →
      (deferred_slot invocationError outcome u).direct
        = [UpAction.send (Msg.error invocationError w), UpAction.seal]) ∧
    ((deferred_slot invocationError outcome u).attached.isSome = true ∨
      (deferred_slot invocationError outcome u).direct.getLast? = some UpAction.seal) := by
  cases outcome with
  | ok s =>
      refine ⟨rfl, ?_, ?_, ?_, Or.inl rfl⟩
      · intro s2 h
        cases h
        exact ⟨rfl, rfl⟩
      · intro c m h; cases h
      · intro w h; cases h
  | system_error c m =>
      refine ⟨rfl, ?_, ?_, ?_, Or.inr rfl⟩
      · intro s2 h; cases h
      · intro c2 m2 h
        cases h
        rfl
      · intro w h; cases h
  | other_error w =>
      refine ⟨rfl, ?_, ?_, ?_, Or.inr rfl⟩
      · intro s2 h; cases h
      · intro c m h; cases h
      · intro w2 h
        cases h
        rfl

/-- Witness for C3 on a concrete non-system error. -/
theorem slot_never_raises_witness :
    (deferred_slot (T := Nat) (U := Nat) 99 (Outcome.other_error "boom") 1).dispatch = none ∧
    (deferred_slot (T := Nat) (U := Nat) 99 (Outcome.other_error "boom") 1).direct
      = [UpAction.send (Msg.error 99 "boom"), UpAction.seal] := by
  constructor
  · exact (slot_never_raises (T := Nat) (U := Nat) 99 (Outcome.other_error "boom") 1).1
  · exact (slot_never_raises (T := Nat) (U := Nat) 99
      (Outcome.other_error "boom") 1).2.2.2.1 "boom" rfl

/-! ## Framed transport (lines.hpp, `socket_t`)

`socket_t::send`/`recv` wrap the underlying zmq calls in a `try/catch`:
a thrown `zmq::error_t` is logged via
`syslog(LOG_ERR, "net: [%s()] %s", __func__, e.what())` and turned into
`false`.  The underlying call is modelled as `Except String Bool` (either
a thrown error with its `what()` string, or the returned boolean). -/

/-- `LOG_ERR` severity from `<syslog.h>`. -/
def LOG_ERR : Nat := 3

structure LogEntry where
  severity : Nat
  text : String
deriving DecidableEq

/-- `socket_t::send`: result plus the log records produced. -/
def socket_send (underlying : Except String Bool) : Bool × List LogEntry :=
  match underlying with
  | Except.ok b => (b, [])
  | Except.error what => (false, [⟨LOG_ERR, "net: [send()] " ++ what⟩])

/-- `socket_t::recv`: result plus the log records produced. -/
def socket_recv (underlying : Except String Bool) : Bool × List LogEntry :=
  match underlying with
  | Except.ok b => (b, [])
  | Except.error what => (false, [⟨LOG_ERR, "net: [recv()] " ++ what⟩])

/-! ### C6 — send/recv never propagate exceptions -/

/-- **C6.** `socket_t::send` and `socket_t::recv` are total on every
underlying outcome (no exception escapes): a normal return is passed
through unlogged, and a thrown transport error is logged exactly once at
`LOG_ERR` with the function name and the underlying reason, with `false`
reported to the caller. -/
theorem socket_send_recv_no_throw (underlying : Except String Bool) :
    (∀ b : Bool, underlying = Except.ok b →
      socket_send underlying = (b, []) ∧ socket_recv underlying = (b, [])) ∧
    (∀ what : String, underlying = Except.error what →
      socket_send underlying = (false, [⟨LOG_ERR, "net: [send()] " ++ what⟩]) ∧
      socket_recv underlying = (false, [⟨LOG_ERR, "net: [recv()] " ++ what⟩])) := by
  cases underlying with
  | ok b =>
      refine ⟨?_, ?_⟩
      · intro b2 h
        cases h
        exact ⟨rfl, rfl⟩
      · intro what h; cases h
  | error what =>
      refine ⟨?_, ?_⟩
      · intro b h; cases h
      · intro what2 h
        cases h
        exact ⟨rfl, rfl⟩

/-- Witness for C6 at a concrete transport failure. -/
theorem socket_send_recv_no_throw_witness :
    socket_send (Except.error "Connection refused")
      = (false, [⟨LOG_ERR, "net: [send()] Connection refused"⟩]) :=
  ((socket_send_recv_no_throw (Except.error "Connection refused")).2
    "Connection refused" rfl).1

/-! ### C5 — endpoint advertising (`socket_t::bind`) -/

/-- Index of the last occurrence of `c`, as
`std::string::find_last_of` returns it (`none` for `npos`). -/
def find_last_of (c : Char) : List Char → Option Nat
  | [] => none
  | x :: xs =>
      match find_last_of c xs with
      | some i => some (i + 1)
      | none => if x = c then some 0 else none

/-- `socket_t::bind`: the advertised connection string
(`m_endpoint` after the call). -/
def bind_endpoint (hostname : String) (endpoint : String) : String :=
  match find_last_of (Char.ofNat 58) endpoint.data with
  | some position => hostname ++ String.mk (endpoint.data.drop position)
  | none => "<local>"

theorem find_last_of_not_mem (c : Char) (l : List Char) (h : c ∉ l) :
    find_last_of c l = none := by
  induction l with
  | nil => rfl
  | cons x xs ih =>
      simp only [List.mem_cons] at h
      push_neg at h
      have hx : ¬x = c := fun hh => h.1 hh.symm
      simp [find_last_of, ih h.2, hx]

theorem find_last_of_append (c : Char) (pre post : List Char) (h : c ∉ post) :
    find_last_of c (pre ++ c :: post) = some pre.length := by
  induction pre with
  | nil => simp [find_last_of, find_last_of_not_mem c post h]
  | cons x xs ih => simp [find_last_of, ih]

/-- **C5.** When the endpoint contains a colon, the advertised string is
the configured hostname followed by the suffix of the endpoint starting at
its last colon (colon included); when it contains none, it is the sentinel
`"<local>"`. -/
theorem bind_endpoint_advertising (hostname : String) (pre post : List Char)
    (hpost : Char.ofNat 58 ∉ post) :
    bind_endpoint hostname (String.mk (pre ++ Char.ofNat 58 :: post))
      = hostname ++ String.mk (Char.ofNat 58 :: post) ∧
    (∀ endpoint : String, Char.ofNat 58 ∉ endpoint.data →
      bind_endpoint hostname endpoint = "<local>") := by
  constructor
  · have h1 := find_last_of_append (Char.ofNat 58) pre post hpost
    simp only [bind_endpoint, h1]
    rw [List.drop_left]
  · intro endpoint h
    simp [bind_endpoint, find_last_of_not_mem (Char.ofNat 58) endpoint.data h]

/-- Witness for C5 on `"tcp://*:5000"` with hostname `"host"` and on a
colon-free endpoint. -/
theorem bind_endpoint_advertising_witness :
    bind_endpoint "host" "tcp://*:5000" = "host:5000" ∧
    bind_endpoint "host" "inproc-core" = "<local>" := by
  have h := bind_endpoint_advertising "host"
    ("tcp://*".data) ("5000".data) (by decide)
  constructor
  · exact h.1
  · exact h.2 "inproc-core" (by decide)

/-! ## Tuple send (lines.hpp, `channel_t::send_multi`)

The recursive template sends the head with `ZMQ_SNDMORE` or-ed into the
flags whenever a tail remains, and short-circuits through `&&`: on the
first failed frame the tail is not attempted.  Each frame send consults the
transport; successive outcomes are modelled by an oracle on the attempt
counter.  `send_multi oracle i frames` returns the boolean result, the
next attempt counter, and the trace of frames actually attempted, each
paired with its `more_follows` (`ZMQ_SNDMORE`) flag. -/

def send_multi {V : Type} (oracle : Nat → Bool) (i : Nat) :
    List V → Bool × Nat × List (V × Bool)
  | [] => (true, i, [])
  | [x] => (oracle i, i + 1, [(x, false)])
  | x :: y :: rest =>
      if oracle i then
        let r := send_multi oracle (i + 1) (y :: rest)
        (r.1, r.2.1, (x, true) :: r.2.2)
      else
        (false, i + 1, [(x, true)])

/-- The `more_follows` flags for a tuple of arity `n`: every element but
the last carries `ZMQ_SNDMORE`. -/
def moreFlags : Nat → List Bool
  | 0 => []
  | n + 1 => List.replicate n true ++ [false]

theorem moreFlags_cons (n : Nat) :
    moreFlags (n + 2) = true :: moreFlags (n + 1) := by
  simp [moreFlags, List.replicate_succ]

/-- If every consulted attempt succeeds, `send_multi` sends all frames
with the canonical flags and returns `true`. -/
theorem send_multi_all_ok {V : Type} (frames : List V) :
    ∀ (oracle : Nat → Bool) (i : Nat),
      (∀ k, k < frames.length → oracle (i + k) = true) →
      send_multi oracle i frames
        = (true, i + frames.length, frames.zip (moreFlags frames.length)) := by
  induction frames with
  | nil => intro oracle i _; simp [send_multi, moreFlags]
  | cons x rest ih =>
      intro oracle i hok
      cases rest with
      | nil =>
          have h0 := hok 0 (by simp)
          simp only [Nat.add_zero] at h0
          simp [send_multi, h0, moreFlags]
      | cons y rest2 =>
          have h0 := hok 0 (by simp)
          simp only [Nat.add_zero] at h0
          have hrest : ∀ k, k < (y :: rest2).length → oracle (i + 1 + k) = true := by
            intro k hk
            have := hok (k + 1) (by simpa using Nat.succ_lt_succ hk)
            simpa [Nat.add_assoc, Nat.add_comm 1 k] using this
          have hr := ih oracle (i + 1) hrest
          simp only [send_multi, h0, if_true, hr, List.length_cons, moreFlags_cons,
            List.zip_cons_cons, Prod.mk.injEq]
          refine ⟨trivial, by omega, trivial⟩

/-- `send_multi` returns `true` only if every frame's send succeeded. -/
theorem send_multi_true_all_ok {V : Type} (frames : List V) :
    ∀ (oracle : Nat → Bool) (i : Nat),
      (send_multi oracle i frames).1 = true →
      ∀ k, k < frames.length → oracle (i + k) = true := by
  induction frames with
  | nil => intro oracle i _ k hk; simp at hk
  | cons x rest ih =>
      intro oracle i h k hk
      cases rest with
      | nil =>
          simp only [List.length_cons, List.length_nil] at hk
          interval_cases k
          simpa [send_multi] using h
      | cons y rest2 =>
          by_cases h0 : oracle i = true
          · simp only [send_multi, h0, if_true] at h
            cases k with
            | zero => simpa using h0
            | succ k2 =>
                have := ih oracle (i + 1) h k2 (by simpa using Nat.lt_of_succ_lt_succ hk)
                simpa [Nat.add_assoc, Nat.add_comm 1 k2] using this
          · simp only [send_multi, h0, Bool.not_eq_true] at h
            rw [if_neg] at h
            · simp at h
            · simp [h0]

/-- On the first failing frame, `send_multi` stops: the trace is exactly
the frames up to and including the failing one, and the result is
`false`. -/
theorem send_multi_first_fail {V : Type} (frames : List V) :
    ∀ (oracle : Nat → Bool) (i k : Nat),
      k < frames.length → oracle (i + k) = false →
      (∀ j, j < k → oracle (i + j) = true) →
      send_multi oracle i frames
        = (false, i + k + 1,
            (frames.take (k + 1)).zip ((moreFlags frames.length).take (k + 1))) := by
  induction frames with
  | nil => intro oracle i k hk _ _; simp at hk
  | cons x rest ih =>
      intro oracle i k hk hfail hpre
      cases rest with
      | nil =>
          simp only [List.length_cons, List.length_nil] at hk
          interval_cases k
          simp only [Nat.add_zero] at hfail
          simp [send_multi, hfail, moreFlags]
      | cons y rest2 =>
          cases k with
          | zero =>
              simp only [Nat.add_zero] at hfail
              simp [send_multi, hfail, moreFlags, List.replicate_succ]
          | succ k2 =>
              have h0 : oracle i = true := by
                have := hpre 0 (Nat.succ_pos k2)
                simpa using this
              have hfail2 : oracle (i + 1 + k2) = false := by
                simpa [Nat.add_assoc, Nat.add_comm 1 k2] using hfail
              have hpre2 : ∀ j, j < k2 → oracle (i + 1 + j) = true := by
                intro j hj
                have := hpre (j + 1) (Nat.succ_lt_succ hj)
                simpa [Nat.add_assoc, Nat.add_comm 1 j] using this
              have hr := ih oracle (i + 1) k2
                (by simpa using Nat.lt_of_succ_lt_succ hk) hfail2 hpre2
              simp only [send_multi, h0, if_true, hr, List.length_cons, moreFlags_cons,
                List.take_succ_cons, List.zip_cons_cons, Prod.mk.injEq]
              refine ⟨trivial, by omega, trivial⟩

/-! ### C7 — tuple send semantics -/

/-- **C7.** For a tuple of arity at least one: all elements but the last
are attempted with `more_follows` set and the last without it; the call
returns `true` only if every frame's send succeeded (and then all frames
were sent); on the first frame-send failure it returns `false` with no
further element attempted. -/
theorem send_multi_semantics {V : Type} (frames : List V) (_hne : frames ≠ [])
    (oracle : Nat → Bool) (i : Nat) :
    ((∀ k, k < frames.length → oracle (i + k) = true) →
      send_multi oracle i frames
        = (true, i + frames.length, frames.zip (moreFlags frames.length))) ∧
    ((send_multi oracle i frames).1 = true →
      ∀ k, k < frames.length → oracle (i + k) = true) ∧
    (∀ k, k < frames.length → oracle (i + k) = false →
      (∀ j, j < k → oracle (i + j) = true) →
      send_multi oracle i frames
        = (false, i + k + 1,
            (frames.take (k + 1)).zip ((moreFlags frames.length).take (k + 1)))) := by
  refine ⟨send_multi_all_ok frames oracle i, send_multi_true_all_ok frames oracle i, ?_⟩
  intro k hk hfail hpre
  exact send_multi_first_fail frames oracle i k hk hfail hpre

/-- Witness for C7: a three-frame tuple where every send succeeds, and one
where the second send fails. -/
theorem send_multi_semantics_witness :
    send_multi (fun _ => true) 0 [10, 20, 30]
      = (true, 3, [(10, true), (20, true), (30, false)]) ∧
    send_multi (fun a => a ≠ 1) 0 [10, 20, 30]
      = (false, 2, [(10, true), (20, true)]) := by
  constructor
  · have h := (send_multi_semantics [10, 20, 30] (by simp) (fun _ => true) 0).1
      (by intro k hk; rfl)
    simpa [moreFlags, List.replicate] using h
  · have h := (send_multi_semantics [10, 20, 30] (by simp) (fun a => a ≠ 1) 0).2.2
      1 (by simp) (by decide) (by decide)
    simpa [moreFlags, List.replicate] using h

/-! ## Driver publish guard (abstract.hpp, `abstract_driver_t::publish`) -/

/-- `abstract_driver_t`: the driver id and the pipe, the latter modelled
by the log of tuples sent over it (`none` for a null `m_pipe`). -/
structure abstract_driver (D : Type) where
  m_id : String
  m_pipe : Option (List (String × D))
deriving DecidableEq

/-- `abstract_driver_t::publish`: send `(m_id, dict)` on the pipe iff the
pipe is non-null and the id is non-empty; returns the new driver state and
the tuples emitted by this call. -/
def publish {D : Type} (d : abstract_driver D) (dict : D) :
    abstract_driver D × List (String × D) :=
  match d.m_pipe with
  | some sent =>
      if d.m_id = "" then (d, [])
      else (⟨d.m_id, some (sent ++ [(d.m_id, dict)])⟩, [(d.m_id, dict)])
  | none => (d, [])

/-! ### C9 — publish guard -/

/-- **C9.** `publish` emits the tuple `(m_id, dict)` on the pipe iff the
pipe is non-null and the id non-empty; in every other case it sends
nothing and leaves the driver state unchanged. -/
theorem publish_guard {D : Type} (d : abstract_driver D) (dict : D) :
    ((publish d dict).2 = [(d.m_id, dict)] ↔
      (d.m_pipe.isSome = true ∧ d.m_id ≠ "")) ∧
    (∀ sent, d.m_pipe = some sent → d.m_id ≠ "" →
      (publish d dict).1 = ⟨d.m_id, some (sent ++ [(d.m_id, dict)])⟩) ∧
    (¬(d.m_pipe.isSome = true ∧ d.m_id ≠ "") → publish d dict = (d, [])) := by
  obtain ⟨i, p⟩ := d
  cases p with
  | none =>
      refine ⟨?_, ?_, ?_⟩
      · simp [publish]
      · intro sent h; cases h
      · intro _; simp [publish]
  | some sent =>
      by_cases hi : i = ""
      · subst hi
        refine ⟨?_, ?_, ?_⟩
        · simp [publish]
        · intro sent2 h h2; exact absurd rfl h2
        · intro _; simp [publish]
      · refine ⟨?_, ?_, ?_⟩
        · simp [publish, hi]
        · intro sent2 h h2
          cases h
          simp [publish, hi]
        · intro h
          exfalso
          exact h ⟨rfl, hi⟩

/-- Witness for C9: a driver with a live pipe and a non-empty id emits its
tuple; a null pipe emits nothing. -/
theorem publish_guard_witness :
    (publish (⟨"timer", some []⟩ : abstract_driver Nat) 5).2 = [("timer", 5)] ∧
    publish (⟨"timer", none⟩ : abstract_driver Nat) 5 = (⟨"timer", none⟩, []) := by
  constructor
  · exact (publish_guard (⟨"timer", some []⟩ : abstract_driver Nat) 5).1.2
      ⟨rfl, by simp⟩
  · exact (publish_guard (⟨"timer", none⟩ : abstract_driver Nat) 5).2.2
      (by simp)

/-! ## Typed channel codec (lines.hpp, `channel_t::send<T>` / `recv<T>`)

`channel_t::send<T>` packs a value with `msgpack::pack` into one message;
`channel_t::recv<T>` unpacks the received message and converts it back.
The msgpack codec itself lives in the external msgpack library, outside
this repository fragment, so it is modelled from the spec below. -/

/-- Modelled from the spec: the "self-describing codec
(MessagePack-family)" used by the typed channel is external to the
repository; the spec requires a tagged, recursively structured datum
covering, at the value level, nil, bool, int, uint, float, str, bin and
array and map, that round-trips byte-for-byte through pack/unpack.  The
model has one arm per spec value kind.  A float is carried by its 64-bit
IEEE-754 image (`bits`): the codec moves those 8 bytes opaquely in both
directions, so the byte-for-byte round-trip the spec asserts is exactly
the round-trip of the image. -/
inductive MValue : Type where
  | nil : MValue
  | boolean (b : Bool) : MValue
  | int (n : Int) : MValue
  | uint (n : Nat) : MValue
  | float (bits : Nat) : MValue
  | str (chars : List Char) : MValue
  | bin (bytes : List Nat) : MValue
  | arr (elements : List MValue) : MValue
  | map (pairs : List (MValue × MValue)) : MValue

/-- `k` bytes of `n`, big-endian (`n` is taken modulo `2^(8k)`).  Bytes are
`Nat`s below 256. -/
def natToBE : Nat → Nat → List Nat
  | 0, _ => []
  | k + 1, n => natToBE k (n / 256) ++ [n % 256]

/-- Big-endian bytes back to a `Nat`. -/
def beToNat (l : List Nat) : Nat :=
  l.foldl (fun acc b => acc * 256 + b) 0

/-- Signed interpretation of an unsigned 64-bit value (two's complement). -/
def intOfBE (m : Nat) : Int :=
  if m < 2 ^ 63 then (m : Int) else (m : Int) - 2 ^ 64

/-- One character as its 4-byte big-endian code point. -/
def encodeChar (ch : Char) : List Nat := natToBE 4 ch.toNat

/-- A character string, character by character. -/
def encodeChars : List Char → List Nat
  | [] => []
  | c :: cs => encodeChar c ++ encodeChars cs

mutual
/-- Modelled from the spec: `msgpack::pack` on the value level.  Fixed
tags in the MessagePack style: `0xc0` nil, `0xc2`/`0xc3` bool, `0xd3`
int64 (two's complement big-endian), `0xcf` uint64, `0xcb` float64
(the 8-byte IEEE-754 image), `0xdb` str32 (4-byte length), `0xc6` bin32
(4-byte length), `0xdd` array32 (4-byte count), `0xdf` map32 (4-byte
pair count, keys and values interleaved). -/
def encode : MValue → List Nat
  | MValue.nil => [0xc0]
  | MValue.boolean false => [0xc2]
  | MValue.boolean true => [0xc3]
  | MValue.int n => 0xd3 :: natToBE 8 (n % (2 : Int) ^ 64).toNat
  | MValue.uint n => 0xcf :: natToBE 8 n
  | MValue.float bits => 0xcb :: natToBE 8 bits
  | MValue.str cs => 0xdb :: (natToBE 4 cs.length ++ encodeChars cs)
  | MValue.bin bs => 0xc6 :: (natToBE 4 bs.length ++ bs)
  | MValue.arr es => 0xdd :: (natToBE 4 es.length ++ encodeList es)
  | MValue.map ps => 0xdf :: (natToBE 4 ps.length ++ encodePairs ps)
def encodeList : List MValue → List Nat
  | [] => []
  | v :: vs => encode v ++ encodeList vs
def encodePairs : List (MValue × MValue) → List Nat
  | [] => []
  | (k, v) :: ps => encode k ++ encode v ++ encodePairs ps
end

mutual
/-- Codec-representability: the int arm fits in 64 signed bits, the uint
arm and the float image in 64 unsigned bits, bin entries are bytes, and
the str/bin/array/map lengths fit in the 32-bit length fields. -/
def representable : MValue → Bool
  | MValue.nil => true
  | MValue.boolean _ => true
  | MValue.int n => decide (-(2 : Int) ^ 63 ≤ n ∧ n < 2 ^ 63)
  | MValue.uint n => decide (n < 2 ^ 64)
  | MValue.float bits => decide (bits < 2 ^ 64)
  | MValue.str cs => decide (cs.length < 2 ^ 32)
  | MValue.bin bs => decide (bs.length < 2 ^ 32) && bs.all (fun b => decide (b < 256))
  | MValue.arr es => decide (es.length < 2 ^ 32) && representableList es
  | MValue.map ps => decide (ps.length < 2 ^ 32) && representablePairs ps
def representableList : List MValue → Bool
  | [] => true
  | v :: vs => representable v && representableList vs
def representablePairs : List (MValue × MValue) → Bool
  | [] => true
  | (k, v) :: ps => representable k && (representable v && representablePairs ps)
end

/-- One character back from its 4-byte code point. -/
def decodeChar (bytes : List Nat) : Option (Char × List Nat) :=
  if 4 ≤ bytes.length then
    if Nat.isValidChar (beToNat (bytes.take 4)) then
      some (Char.ofNat (beToNat (bytes.take 4)), bytes.drop 4)
    else none
  else none

/-- `count` characters back from the byte stream. -/
def decodeChars : Nat → List Nat → Option (List Char × List Nat)
  | 0, bytes => some ([], bytes)
  | count + 1, bytes =>
      match decodeChar bytes with
      | some p =>
          match decodeChars count p.2 with
          | some q => some (p.1 :: q.1, q.2)
          | none => none
      | none => none

mutual
/-- Modelled from the spec: `msgpack::unpack` + `object::convert` — the
decoder for the value-level codec.  The `fuel` argument bounds the
recursion; every recursive call consumes one unit. -/
def decode : Nat → List Nat → Option (MValue × List Nat)
  | 0, _ => none
  | fuel + 1, bytes =>
      match bytes with
      | [] => none
      | tag :: rest =>
          if tag = 0xc0 then some (MValue.nil, rest)
          else if tag = 0xc2 then some (MValue.boolean false, rest)
          else if tag = 0xc3 then some (MValue.boolean true, rest)
          else if tag = 0xd3 then
            if 8 ≤ rest.length then
              some (MValue.int (intOfBE (beToNat (rest.take 8))), rest.drop 8)
            else none
          else if tag = 0xcf then
            if 8 ≤ rest.length then
              some (MValue.uint (beToNat (rest.take 8)), rest.drop 8)
            else none
          else if tag = 0xcb then
            if 8 ≤ rest.length then
              some (MValue.float (beToNat (rest.take 8)), rest.drop 8)
            else none
          else if tag = 0xdb then
            if 4 ≤ rest.length then
              match decodeChars (beToNat (rest.take 4)) (rest.drop 4) with
              | some p => some (MValue.str p.1, p.2)
              | none => none
            else none
          else if tag = 0xc6 then
            if 4 ≤ rest.length then
              if beToNat (rest.take 4) ≤ (rest.drop 4).length then
                some (MValue.bin ((rest.drop 4).take (beToNat (rest.take 4))),
                  (rest.drop 4).drop (beToNat (rest.take 4)))
              else none
            else none
          else if tag = 0xdd then
            if 4 ≤ rest.length then
              match decodeList fuel (beToNat (rest.take 4)) (rest.drop 4) with
              | some p => some (MValue.arr p.1, p.2)
              | none => none
            else none
          else if tag = 0xdf then
            if 4 ≤ rest.length then
              match decodePairs fuel (beToNat (rest.take 4)) (rest.drop 4) with
              | some p => some (MValue.map p.1, p.2)
              | none => none
            else none
          else none
def decodeList : Nat → Nat → List Nat → Option (List MValue × List Nat)
  | 0, _, _ => none
  | _ + 1, 0, bytes => some ([], bytes)
  | fuel + 1, count + 1, bytes =>
      match decode fuel bytes with
      | some p =>
          match decodeList fuel count p.2 with
          | some q => some (p.1 :: q.1, q.2)
          | none => none
      | none => none
def decodePairs : Nat → Nat → List Nat → Option (List (MValue × MValue) × List Nat)
  | 0, _, _ => none
  | _ + 1, 0, bytes => some ([], bytes)
  | fuel + 1, count + 1, bytes =>
      match decode fuel bytes with
      | some p =>
          match decode fuel p.2 with
          | some q =>
              match decodePairs fuel count q.2 with
              | some r => some ((p.1, q.1) :: r.1, r.2)
              | none => none
          | none => none
      | none => none
end

/-- `channel_t::send<T>`: pack the value into one message buffer. -/
def channel_send (v : MValue) : List Nat := encode v

/-- `channel_t::recv<T>`: unpack one received message and convert. -/
def channel_recv (message : List Nat) : Option MValue :=
  match decode message.length message with
  | some p => some p.1
  | none => none

/-! ### Codec lemmas -/

theorem natToBE_length (k n : Nat) : (natToBE k n).length = k := by
  induction k generalizing n with
  | zero => rfl
  | succ k2 ih => simp [natToBE, ih]

theorem beToNat_append_one (l : List Nat) (b : Nat) :
    beToNat (l ++ [b]) = beToNat l * 256 + b := by
  simp [beToNat, List.foldl_append]

theorem beToNat_natToBE (k : Nat) : ∀ n : Nat, beToNat (natToBE k n) = n % 2 ^ (8 * k) := by
  induction k with
  | zero => intro n; simp [natToBE, beToNat, Nat.mod_one]
  | succ k2 ih =>
      intro n
      rw [natToBE, beToNat_append_one, ih (n / 256)]
      have hpow : 2 ^ (8 * (k2 + 1)) = 256 * 2 ^ (8 * k2) := by
        rw [Nat.mul_succ, Nat.pow_add]
        ring
      rw [hpow, Nat.mod_mul]
      ring

theorem take_natToBE (k n : Nat) (l : List Nat) :
    (natToBE k n ++ l).take k = natToBE k n := by
  have h := List.take_left (natToBE k n) l
  rwa [natToBE_length] at h

theorem drop_natToBE (k n : Nat) (l : List Nat) :
    (natToBE k n ++ l).drop k = l := by
  have h := List.drop_left (natToBE k n) l
  rwa [natToBE_length] at h

/-! Per-tag unfolding equations for `decode`. -/

theorem decode_tag_nil (fuel : Nat) (rest : List Nat) :
    decode (fuel + 1) (0xc0 :: rest) = some (MValue.nil, rest) := by
  simp [decode]

theorem decode_tag_false (fuel : Nat) (rest : List Nat) :
    decode (fuel + 1) (0xc2 :: rest) = some (MValue.boolean false, rest) := by
  simp [decode]

theorem decode_tag_true (fuel : Nat) (rest : List Nat) :
    decode (fuel + 1) (0xc3 :: rest) = some (MValue.boolean true, rest) := by
  simp [decode]

theorem decode_tag_int (fuel : Nat) (rest : List Nat) :
    decode (fuel + 1) (0xd3 :: rest)
      = if 8 ≤ rest.length then
          some (MValue.int (intOfBE (beToNat (rest.take 8))), rest.drop 8)
        else none := by
  simp [decode]

theorem decode_tag_uint (fuel : Nat) (rest : List Nat) :
    decode (fuel + 1) (0xcf :: rest)
      = if 8 ≤ rest.length then
          some (MValue.uint (beToNat (rest.take 8)), rest.drop 8)
        else none := by
  simp [decode]

theorem decode_tag_float (fuel : Nat) (rest : List Nat) :
    decode (fuel + 1) (0xcb :: rest)
      = if 8 ≤ rest.length then
          some (MValue.float (beToNat (rest.take 8)), rest.drop 8)
        else none := by
  simp [decode]

theorem decode_tag_str (fuel : Nat) (rest : List Nat) :
    decode (fuel + 1) (0xdb :: rest)
      = if 4 ≤ rest.length then
          match decodeChars (beToNat (rest.take 4)) (rest.drop 4) with
          | some p => some (MValue.str p.1, p.2)
          | none => none
        else none := by
  simp [decode]

theorem decode_tag_bin (fuel : Nat) (rest : List Nat) :
    decode (fuel + 1) (0xc6 :: rest)
      = if 4 ≤ rest.length then
          if beToNat (rest.take 4) ≤ (rest.drop 4).length then
            some (MValue.bin ((rest.drop 4).take (beToNat (rest.take 4))),
              (rest.drop 4).drop (beToNat (rest.take 4)))
          else none
        else none := by
  simp [decode]

theorem decode_tag_arr (fuel : Nat) (rest : List Nat) :
    decode (fuel + 1) (0xdd :: rest)
      = if 4 ≤ rest.length then
          match decodeList fuel (beToNat (rest.take 4)) (rest.drop 4) with
          | some p => some (MValue.arr p.1, p.2)
          | none => none
        else none := by
  simp [decode]

theorem decode_tag_map (fuel : Nat) (rest : List Nat) :
    decode (fuel + 1) (0xdf :: rest)
      = if 4 ≤ rest.length then
          match decodePairs fuel (beToNat (rest.take 4)) (rest.drop 4) with
          | some p => some (MValue.map p.1, p.2)
          | none => none
        else none := by
  simp [decode]

theorem decodeChar_encodeChar (ch : Char) (rest : List Nat) :
    decodeChar (encodeChar ch ++ rest) = some (ch, rest) := by
  have hvalid : Nat.isValidChar ch.toNat := ch.valid
  have hlt : ch.toNat < 2 ^ (8 * 4) := by
    rcases hvalid with h | h
    · norm_num; omega
    · norm_num; omega
  have hlen : 4 ≤ (encodeChar ch ++ rest).length := by
    simp [encodeChar, natToBE_length]
  have hm : beToNat ((encodeChar ch ++ rest).take 4) = ch.toNat := by
    rw [show encodeChar ch ++ rest = natToBE 4 ch.toNat ++ rest from rfl,
      take_natToBE, beToNat_natToBE]
    exact Nat.mod_eq_of_lt hlt
  rw [decodeChar, if_pos hlen, hm, if_pos hvalid, Char.ofNat_toNat,
    show encodeChar ch ++ rest = natToBE 4 ch.toNat ++ rest from rfl,
    drop_natToBE]

theorem decodeChars_encodeChars (cs : List Char) :
    ∀ rest : List Nat, decodeChars cs.length (encodeChars cs ++ rest) = some (cs, rest) := by
  induction cs with
  | nil => intro rest; simp [encodeChars, decodeChars]
  | cons c cs2 ih =>
      intro rest
      simp only [List.length_cons, encodeChars, List.append_assoc, decodeChars,
        decodeChar_encodeChar, ih]

theorem encode_length_pos (v : MValue) : 0 < (encode v).length := by
  cases v with
  | nil => simp [encode]
  | boolean b => cases b <;> simp [encode]
  | int n => simp [encode]
  | uint n => simp [encode]
  | float bits => simp [encode]
  | str cs => simp [encode]
  | bin bs => simp [encode]
  | arr es => simp [encode]
  | map ps => simp [encode]

theorem intOfBE_emod (n : Int) (h1 : -(2 : Int) ^ 63 ≤ n) (h2 : n < 2 ^ 63) :
    intOfBE ((n % (2 : Int) ^ 64).toNat) = n := by
  unfold intOfBE
  norm_num at h1 h2 ⊢
  split <;> omega

theorem emod_toNat_lt (n : Int) : ((n % (2 : Int) ^ 64).toNat) < 2 ^ (8 * 8) := by
  norm_num
  omega

/-- Decoding inverts encoding, provided the decoder is run with fuel at
least the encoding's length (value case) or one more than it (list and
pair-list cases). -/
theorem decode_encode_strong : ∀ fuel : Nat,
    (∀ (v : MValue) (rest : List Nat), representable v = true →
      (encode v).length ≤ fuel → decode fuel (encode v ++ rest) = some (v, rest)) ∧
    (∀ (vs : List MValue) (rest : List Nat), representableList vs = true →
      (encodeList vs).length + 1 ≤ fuel →
      decodeList fuel vs.length (encodeList vs ++ rest) = some (vs, rest)) ∧
    (∀ (ps : List (MValue × MValue)) (rest : List Nat), representablePairs ps = true →
      (encodePairs ps).length + 1 ≤ fuel →
      decodePairs fuel ps.length (encodePairs ps ++ rest) = some (ps, rest)) := by
  intro fuel
  induction fuel using Nat.strong_induction_on with
  | _ fuel ih =>
  refine ⟨?_, ?_, ?_⟩
  · intro v rest hrep hfuel
    cases fuel with
    | zero =>
        exfalso
        have := encode_length_pos v
        omega
    | succ f =>
        have ihf := ih f (Nat.lt_succ_self f)
        cases v with
        | nil =>
            simp only [encode, List.cons_append, List.nil_append, decode_tag_nil]
        | boolean b =>
            cases b <;>
              simp only [encode, List.cons_append, List.nil_append,
                decode_tag_false, decode_tag_true]
        | int n =>
            have hn : -(2 : Int) ^ 63 ≤ n ∧ n < 2 ^ 63 := by
              simpa [representable] using hrep
            have hmlt := emod_toNat_lt n
            simp only [encode, List.cons_append]
            rw [decode_tag_int, if_pos (by simp [natToBE_length])]
            rw [take_natToBE, drop_natToBE, beToNat_natToBE,
              Nat.mod_eq_of_lt hmlt, intOfBE_emod n hn.1 hn.2]
        | uint n =>
            have hn : n < 2 ^ 64 := by
              simpa [representable] using hrep
            simp only [encode, List.cons_append]
            rw [decode_tag_uint, if_pos (by simp [natToBE_length])]
            rw [take_natToBE, drop_natToBE, beToNat_natToBE,
              Nat.mod_eq_of_lt (by norm_num; omega)]
        | float bits =>
            have hn : bits < 2 ^ 64 := by
              simpa [representable] using hrep
            simp only [encode, List.cons_append]
            rw [decode_tag_float, if_pos (by simp [natToBE_length])]
            rw [take_natToBE, drop_natToBE, beToNat_natToBE,
              Nat.mod_eq_of_lt (by norm_num; omega)]
        | str cs =>
            have hlen : cs.length < 2 ^ 32 := by
              simpa [representable] using hrep
            simp only [encode, List.cons_append, List.append_assoc]
            rw [decode_tag_str, if_pos (by simp [natToBE_length])]
            rw [take_natToBE, drop_natToBE, beToNat_natToBE,
              Nat.mod_eq_of_lt (by norm_num; omega), decodeChars_encodeChars]
        | bin bs =>
            have hlen : bs.length < 2 ^ 32 := by
              have h := hrep
              simp only [representable, Bool.and_eq_true, decide_eq_true_eq] at h
              exact h.1
            simp only [encode, List.cons_append, List.append_assoc]
            rw [decode_tag_bin, if_pos (by simp [natToBE_length])]
            rw [take_natToBE, drop_natToBE, beToNat_natToBE,
              Nat.mod_eq_of_lt (by norm_num; omega)]
            rw [if_pos (by simp)]
            rw [List.take_left, List.drop_left]
        | arr es =>
            have hb : es.length < 2 ^ 32 ∧ representableList es = true := by
              simpa [representable, Bool.and_eq_true] using hrep
            have hfl : (encodeList es).length + 1 ≤ f := by
              simp only [encode, List.length_cons, List.length_append,
                natToBE_length] at hfuel
              omega
            simp only [encode, List.cons_append, List.append_assoc]
            rw [decode_tag_arr, if_pos (by simp [natToBE_length])]
            rw [take_natToBE, drop_natToBE, beToNat_natToBE,
              Nat.mod_eq_of_lt (by norm_num; omega), ihf.2.1 es rest hb.2 hfl]
        | map ps =>
            have hb : ps.length < 2 ^ 32 ∧ representablePairs ps = true := by
              simpa [representable, Bool.and_eq_true] using hrep
            have hfl : (encodePairs ps).length + 1 ≤ f := by
              simp only [encode, List.length_cons, List.length_append,
                natToBE_length] at hfuel
              omega
            simp only [encode, List.cons_append, List.append_assoc]
            rw [decode_tag_map, if_pos (by simp [natToBE_length])]
            rw [take_natToBE, drop_natToBE, beToNat_natToBE,
              Nat.mod_eq_of_lt (by norm_num; omega), ihf.2.2 ps rest hb.2 hfl]
  · intro vs rest hrep hfuel
    cases fuel with
    | zero => omega
    | succ f =>
        have ihf := ih f (Nat.lt_succ_self f)
        cases vs with
        | nil => simp [encodeList, decodeList]
        | cons v vs2 =>
            have hx : representable v = true ∧ representableList vs2 = true := by
              simpa [representableList, Bool.and_eq_true] using hrep
            have hpos := encode_length_pos v
            have hl1 : (encode v).length ≤ f := by
              simp only [encodeList, List.length_append] at hfuel
              omega
            have hl2 : (encodeList vs2).length + 1 ≤ f := by
              simp only [encodeList, List.length_append] at hfuel
              omega
            simp only [encodeList, List.append_assoc, List.length_cons, decodeList,
              ihf.1 v (encodeList vs2 ++ rest) hx.1 hl1]
            simp [ihf.2.1 vs2 rest hx.2 hl2]
  · intro ps rest hrep hfuel
    cases fuel with
    | zero => omega
    | succ f =>
        have ihf := ih f (Nat.lt_succ_self f)
        cases ps with
        | nil => simp [encodePairs, decodePairs]
        | cons p ps2 =>
            obtain ⟨k, v⟩ := p
            have hx : representable k = true ∧
                (representable v = true ∧ representablePairs ps2 = true) := by
              simpa [representablePairs, Bool.and_eq_true] using hrep
            have hposk := encode_length_pos k
            have hposv := encode_length_pos v
            have hl1 : (encode k).length ≤ f := by
              simp only [encodePairs, List.length_append] at hfuel
              omega
            have hl2 : (encode v).length ≤ f := by
              simp only [encodePairs, List.length_append] at hfuel
              omega
            have hl3 : (encodePairs ps2).length + 1 ≤ f := by
              simp only [encodePairs, List.length_append] at hfuel
              omega
            simp only [encodePairs, List.append_assoc, List.length_cons, decodePairs,
              ihf.1 k (encode v ++ (encodePairs ps2 ++ rest)) hx.1 hl1]
            simp only [ihf.1 v (encodePairs ps2 ++ rest) hx.2.1 hl2]
            simp [ihf.2.2 ps2 rest hx.2.2 hl3]

/-! ### C8 — codec round-trip through the typed channel -/

/-- **C8.** For every codec-representable value, a typed channel send
followed by a typed recv into the same type reconstructs the value:
`decode (encode v) = v`. -/
theorem channel_roundtrip (v : MValue) (hrep : representable v = true) :
    channel_recv (channel_send v) = some v := by
  have h := (decode_encode_strong (encode v).length).1 v [] hrep (Nat.le_refl _)
  rw [List.append_nil] at h
  rw [channel_recv, channel_send, h]

/-- Witness for C8 at a concrete nested value exercising every arm:
nil, bool, int, uint (above `2^63`), float (the IEEE-754 image of 1.5),
str, bin, array and map. -/
theorem channel_roundtrip_witness :
    representable (MValue.map
      [(MValue.str [Char.ofNat 111, Char.ofNat 107],
        MValue.arr
          [MValue.int (-5), MValue.uint 9223372036854775815,
            MValue.float 4609434218613702656, MValue.bin [0, 255, 16],
            MValue.nil, MValue.boolean true])]) = true ∧
    channel_recv (channel_send (MValue.map
      [(MValue.str [Char.ofNat 111, Char.ofNat 107],
        MValue.arr
          [MValue.int (-5), MValue.uint 9223372036854775815,
            MValue.float 4609434218613702656, MValue.bin [0, 255, 16],
            MValue.nil, MValue.boolean true])]))
      = some (MValue.map
          [(MValue.str [Char.ofNat 111, Char.ofNat 107],
            MValue.arr
              [MValue.int (-5), MValue.uint 9223372036854775815,
                MValue.float 4609434218613702656, MValue.bin [0, 255, 16],
                MValue.nil, MValue.boolean true])]) := by
  refine ⟨by decide, ?_⟩
  exact channel_roundtrip _ (by decide)

end Cocaine
